import Mathlib

/-!
Verification of the divide-and-conquer matrix-multiplication core
(`matrix.py`, `classic.py`, `strassen.py`) of the repository.

Matrices are embedded as `List (List ℤ)` (Python list-of-lists of ints,
row-major).  Imperative loops that fill a fresh result matrix are rendered
as `List.range`-indexed constructions; element access `A[i][j]` is rendered
by the total function `entry` (out-of-range access, which would raise
`IndexError` in Python, yields the default `0`; every theorem below only
concerns in-range accesses under well-formedness hypotheses).
Wall-clock measurement (`perf_counter`) is modelled by a supply
`ts : Nat → ℚ` of elapsed durations, one per timed region, consumed in
program order through an index threaded alongside the stats record;
non-negativity of each elapsed duration (monotonicity of the host clock)
is a hypothesis where needed.  Python exceptions are modelled by
`Except String`.
-/

namespace TrabalhoDivConq

/-- Matrices as in `matrix.py`: row-major list of rows of integers. -/
abbrev Matrix : Type := List (List ℤ)

/-- Element access `A[i][j]`, total with default `0` out of range. -/
def entry (A : Matrix) (i j : Nat) : ℤ :=
  ((A[i]?.getD [])[j]?).getD 0

/-- Well-formedness: `A` is an `n × n` matrix (the invariant `is_square`
checks at runtime). -/
def Sq (A : Matrix) (n : Nat) : Prop :=
  A.length = n ∧ ∀ r ∈ A, r.length = n

instance (A : Matrix) (n : Nat) : Decidable (Sq A n) :=
  inferInstanceAs (Decidable (A.length = n ∧ ∀ r ∈ A, r.length = n))

/-- Embeds `zeros(n)`: an `n × n` matrix of zeros. -/
def zeros (n : Nat) : Matrix :=
  List.replicate n (List.replicate n (0 : ℤ))

/-- Embeds `add(A, B)`: fills a fresh `n × n` matrix (`n = len(A)`) with
`A[i][j] + B[i][j]`. -/
def add (A B : Matrix) : Matrix :=
  (List.range A.length).map fun i =>
    (List.range A.length).map fun j =>
      entry A i j + entry B i j

/-- Embeds `sub(A, B)`. -/
def sub (A B : Matrix) : Matrix :=
  (List.range A.length).map fun i =>
    (List.range A.length).map fun j =>
      entry A i j - entry B i j

/-- Embeds `split(A)`: the four quadrants
`(A11, A12, A21, A22)` cut at `mid = len(A) // 2` by row/column slicing. -/
def split (A : Matrix) : Matrix × Matrix × Matrix × Matrix :=
  ((A.take (A.length / 2)).map
      (fun r => r.take (A.length / 2)),
   (A.take (A.length / 2)).map
      (fun r => r.drop (A.length / 2)),
   (A.drop (A.length / 2)).map
      (fun r => r.take (A.length / 2)),
   (A.drop (A.length / 2)).map
      (fun r => r.drop (A.length / 2)))

/-- Embeds `combine(C11, C12, C21, C22)` with `mid = len(C11)`,
`n = mid * 2`.  Each row of the result starts as a zero row of length `n`;
Python's slice assignment `C[i][:mid] = X` turns a row `z` into
`X ++ z.drop mid`, and `C[i][mid:] = Y` turns it into `row.take mid ++ Y`,
which is rendered literally below. -/
def combine (C11 C12 C21 C22 : Matrix) : Matrix :=
  ((List.range C11.length).map fun i =>
    ((C11[i]?.getD [] ++
        (List.replicate (C11.length * 2) (0 : ℤ)).drop
          C11.length).take C11.length)
      ++ C12[i]?.getD [])
  ++ ((List.range C11.length).map fun i =>
    ((C21[i]?.getD [] ++
        (List.replicate (C11.length * 2) (0 : ℤ)).drop
          C11.length).take C11.length)
      ++ C22[i]?.getD [])

/-- Loop of `next_power_of_two`: `while p < n: p <<= 1`.  The strictly
positive accumulator makes the doubling strictly increasing. -/
def npot_go (n p : Nat) (hp : 0 < p) : Nat :=
  if _h : p < n then npot_go n (p * 2) (by omega) else p
termination_by n - p
decreasing_by omega

/-- Embeds `next_power_of_two(n)`: the smallest power of two `≥ n`
computed by doubling from `1`. -/
def next_power_of_two (n : Nat) : Nat :=
  npot_go n 1 (by omega)

/-- Embeds `pad_to_size(A, new_n)`: a fresh `new_n × new_n` zero matrix
whose top-left `n × n` corner (`n = len(A)`) is overwritten with `A`. -/
def pad_to_size (A : Matrix) (new_n : Nat) : Matrix :=
  (List.range new_n).map fun i =>
    (List.range new_n).map fun j =>
      if i < A.length ∧ j < A.length then
        entry A i j
      else 0

/-- Embeds `crop(A, n)`: the top-left `n × n` corner by slicing. -/
def crop (A : Matrix) (n : Nat) : Matrix :=
  (A.take n).map fun r => r.take n

/-- Embeds `is_square(A)`. -/
def is_square (A : Matrix) : Bool :=
  A.all fun r => r.length == A.length

/-- Embeds `assert_square(A, name)`: `ValueError` becomes `Except.error`. -/
def assert_square (A : Matrix) (name : String) : Except String Unit :=
  if is_square A then Except.ok ()
  else Except.error ("Matriz " ++ name ++ " não é quadrada.")

/-- Triple loop body of `mul_classic` (after its validation):
`C[i][j] = s` where `s` accumulates `A[i][k] * B[k][j]` over `k < n`,
`n = len(A)`. -/
def mul_classic_core (A B : Matrix) : Matrix :=
  (List.range A.length).map fun i =>
    (List.range A.length).map fun j =>
      List.foldl (fun s k => s + entry A i k * entry B k j) 0
        (List.range A.length)

/-- Embeds `mul_classic(A, B)`: validation then the triple loop. -/
def mul_classic (A B : Matrix) : Except String Matrix :=
  match assert_square A "A" with
  | Except.error e => Except.error e
  | Except.ok _ =>
    match assert_square B "B" with
    | Except.error e => Except.error e
    | Except.ok _ =>
      if B.length ≠ A.length then
        Except.error "A e B devem ter o mesmo tamanho (n x n)."
      else Except.ok (mul_classic_core A B)

/-- Embeds the dataclass `StrassenStats` (times as exact rationals). -/
structure StrassenStats where
  calls : Nat
  split_combine_time : ℚ
deriving Repr, DecidableEq

/-- Embeds `_strassen_rec(A, B, cutoff, stats)`.  `stats.calls` is bumped
once on entry in every branch; in the recursive branch the first timed
region (split plus the ten sums/differences) consumes duration `ts k` and
the second (result quadrants plus combine) consumes the next unused
duration, the supply index being threaded through the seven recursive
calls together with the stats record. -/
def strassen_rec (A B : Matrix) (cutoff : Nat) (stats : StrassenStats)
    (ts : Nat → ℚ) (k : Nat) : Matrix × StrassenStats × Nat :=
  if _h1 : A.length = 1 then
    ([[entry A 0 0 * entry B 0 0]], { stats with calls := stats.calls + 1 }, k)
  else if _h2 : A.length ≤ cutoff then
    (mul_classic_core A B, { stats with calls := stats.calls + 1 }, k)
  else
    let s1 : StrassenStats :=
      { calls := stats.calls + 1,
        split_combine_time := stats.split_combine_time + ts k }
    let r1 := strassen_rec (add (split A).1 (split A).2.2.2)
        (add (split B).1 (split B).2.2.2) cutoff s1 ts (k + 1)
    let r2 := strassen_rec (add (split A).2.2.1 (split A).2.2.2)
        (split B).1 cutoff r1.2.1 ts r1.2.2
    let r3 := strassen_rec (split A).1
        (sub (split B).2.1 (split B).2.2.2) cutoff r2.2.1 ts r2.2.2
    let r4 := strassen_rec (split A).2.2.2
        (sub (split B).2.2.1 (split B).1) cutoff r3.2.1 ts r3.2.2
    let r5 := strassen_rec (add (split A).1 (split A).2.1)
        (split B).2.2.2 cutoff r4.2.1 ts r4.2.2
    let r6 := strassen_rec (sub (split A).2.2.1 (split A).1)
        (add (split B).1 (split B).2.1) cutoff r5.2.1 ts r5.2.2
    let r7 := strassen_rec (sub (split A).2.1 (split A).2.2.2)
        (add (split B).2.2.1 (split B).2.2.2) cutoff r6.2.1 ts r6.2.2
    (combine (add (sub (add r1.1 r4.1) r5.1) r7.1)
             (add r3.1 r5.1)
             (add r2.1 r4.1)
             (add (sub (add r1.1 r3.1) r2.1) r6.1),
     { r7.2.1 with split_combine_time :=
        r7.2.1.split_combine_time + ts r7.2.2 },
     r7.2.2 + 1)
termination_by A.length
decreasing_by
  all_goals
    simp only [add, sub, split, List.length_map, List.length_take,
      List.length_drop, List.length_range]
  all_goals omega

/-- Embeds `mul_strassen(A, B, cutoff, stats)`: validation, optional fresh
stats, padding to the next power of two when needed, recursion, cropping. -/
def mul_strassen (A B : Matrix) (cutoff : Nat) (stats0 : Option StrassenStats)
    (ts : Nat → ℚ) : Except String (Matrix × StrassenStats) :=
  match assert_square A "A" with
  | Except.error e => Except.error e
  | Except.ok _ =>
    match assert_square B "B" with
    | Except.error e => Except.error e
    | Except.ok _ =>
      if B.length ≠ A.length then
        Except.error "A e B devem ter o mesmo tamanho (n x n)."
      else
        let stats := stats0.getD { calls := 0, split_combine_time := 0 }
        let m := next_power_of_two A.length
        if m ≠ A.length then
          let r := strassen_rec (pad_to_size A m) (pad_to_size B m) cutoff
            stats ts 0
          Except.ok (crop r.1 A.length, r.2.1)
        else
          let r := strassen_rec A B cutoff stats ts 0
          Except.ok (r.1, r.2.1)

/-- Closed form of the call-count recurrence on sizes `n = 2 ^ k`:
`calls(n) = 1` if `n ≤ cutoff` or `n = 1`, else `1 + 7 * calls(n / 2)`. -/
def callsOf (cutoff : Nat) : Nat → Nat
  | 0 => 1
  | k + 1 => if 2 ^ (k + 1) ≤ cutoff then 1 else 1 + 7 * callsOf cutoff k

/-! ### Shape lemmas -/

theorem length_add (A B : Matrix) : (add A B).length = A.length := by
  simp [add]

theorem length_sub (A B : Matrix) : (sub A B).length = A.length := by
  simp [sub]

theorem sq_add (A B : Matrix) : Sq (add A B) A.length := by
  refine ⟨by simp [add], ?_⟩
  intro r hr
  simp only [add, List.mem_map] at hr
  obtain ⟨i, _, rfl⟩ := hr
  simp

theorem sq_sub (A B : Matrix) : Sq (sub A B) A.length := by
  refine ⟨by simp [sub], ?_⟩
  intro r hr
  simp only [sub, List.mem_map] at hr
  obtain ⟨i, _, rfl⟩ := hr
  simp

theorem sq_mc (A B : Matrix) : Sq (mul_classic_core A B) A.length := by
  refine ⟨by simp [mul_classic_core], ?_⟩
  intro r hr
  simp only [mul_classic_core, List.mem_map] at hr
  obtain ⟨i, _, rfl⟩ := hr
  simp

theorem sq_pad (A : Matrix) (m : Nat) : Sq (pad_to_size A m) m := by
  refine ⟨by simp [pad_to_size], ?_⟩
  intro r hr
  simp only [pad_to_size, List.mem_map] at hr
  obtain ⟨i, _, rfl⟩ := hr
  simp

theorem sq_crop {A : Matrix} {m : Nat} (hA : Sq A m) {n : Nat} (h : n ≤ m) :
    Sq (crop A n) n := by
  refine ⟨by simp [crop, hA.1]; omega, ?_⟩
  intro r hr
  simp only [crop, List.mem_map] at hr
  obtain ⟨r0, hr0, rfl⟩ := hr
  have : r0 ∈ A := List.mem_of_mem_take hr0
  simp [hA.2 r0 this]
  omega

theorem sq_split_tl {A : Matrix} {n : Nat} (hA : Sq A n) :
    Sq (split A).1 (n / 2) := by
  refine ⟨by simp [split, hA.1]; omega, ?_⟩
  intro r hr
  simp only [split, List.mem_map] at hr
  obtain ⟨r0, hr0, rfl⟩ := hr
  have : r0 ∈ A := List.mem_of_mem_take hr0
  simp [hA.2 r0 this, hA.1]
  omega

theorem split_tr_shape {A : Matrix} {n : Nat} (hA : Sq A n) :
    ((split A).2.1).length = n / 2 ∧ ∀ r ∈ (split A).2.1, r.length = n - n / 2 := by
  constructor
  · simp [split, hA.1]; omega
  · intro r hr
    simp only [split, List.mem_map] at hr
    obtain ⟨r0, hr0, rfl⟩ := hr
    have : r0 ∈ A := List.mem_of_mem_take hr0
    simp [hA.2 r0 this, hA.1]

theorem split_bl_shape {A : Matrix} {n : Nat} (hA : Sq A n) :
    ((split A).2.2.1).length = n - n / 2 ∧ ∀ r ∈ (split A).2.2.1, r.length = n / 2 := by
  constructor
  · simp [split, hA.1]
  · intro r hr
    simp only [split, List.mem_map] at hr
    obtain ⟨r0, hr0, rfl⟩ := hr
    have : r0 ∈ A := List.mem_of_mem_drop hr0
    simp [hA.2 r0 this, hA.1]
    omega

theorem sq_split_br {A : Matrix} {n : Nat} (hA : Sq A n) :
    Sq (split A).2.2.2 (n - n / 2) := by
  refine ⟨by simp [split, hA.1], ?_⟩
  intro r hr
  simp only [split, List.mem_map] at hr
  obtain ⟨r0, hr0, rfl⟩ := hr
  have : r0 ∈ A := List.mem_of_mem_drop hr0
  simp [hA.2 r0 this, hA.1]

theorem sq_split_tr_even {A : Matrix} {n : Nat} (hA : Sq A n) (he : n % 2 = 0) :
    Sq (split A).2.1 (n / 2) := by
  obtain ⟨h1, h2⟩ := split_tr_shape hA
  exact ⟨h1, fun r hr => by rw [h2 r hr]; omega⟩

theorem sq_split_bl_even {A : Matrix} {n : Nat} (hA : Sq A n) (he : n % 2 = 0) :
    Sq (split A).2.2.1 (n / 2) := by
  obtain ⟨h1, h2⟩ := split_bl_shape hA
  exact ⟨by rw [h1]; omega, h2⟩

theorem sq_split_br_even {A : Matrix} {n : Nat} (hA : Sq A n) (he : n % 2 = 0) :
    Sq (split A).2.2.2 (n / 2) := by
  have h := sq_split_br hA
  have : n - n / 2 = n / 2 := by omega
  rwa [this] at h

/-! ### Entry lemmas -/

theorem entry_add {A B : Matrix} {i j : Nat}
    (hi : i < A.length) (hj : j < A.length) :
    entry (add A B) i j = entry A i j + entry B i j := by
  simp [add, entry, List.getElem?_map, List.getElem?_range hi,
    List.getElem?_range hj]

theorem entry_sub {A B : Matrix} {i j : Nat}
    (hi : i < A.length) (hj : j < A.length) :
    entry (sub A B) i j = entry A i j - entry B i j := by
  simp [sub, entry, List.getElem?_map, List.getElem?_range hi,
    List.getElem?_range hj]

theorem foldl_add_range (f : Nat → ℤ) :
    ∀ (n : Nat) (a : ℤ),
      List.foldl (fun s k => s + f k) a (List.range n) =
        a + ∑ x ∈ Finset.range n, f x := by
  intro n
  induction n with
  | zero => simp
  | succ n ih =>
    intro a
    rw [List.range_succ, List.foldl_append, ih, Finset.sum_range_succ]
    simp [List.foldl]
    ring

theorem entry_mc {A B : Matrix} {i j : Nat}
    (hi : i < A.length) (hj : j < A.length) :
    entry (mul_classic_core A B) i j =
      ∑ x ∈ Finset.range A.length, entry A i x * entry B x j := by
  conv_lhs => rw [entry, mul_classic_core]
  simp [List.getElem?_map, List.getElem?_range hi, List.getElem?_range hj,
    foldl_add_range]

theorem entry_pad {A : Matrix} {m i j : Nat} (hi : i < m) (hj : j < m) :
    entry (pad_to_size A m) i j =
      if i < A.length ∧ j < A.length then entry A i j else 0 := by
  conv_lhs => rw [entry, pad_to_size]
  simp [List.getElem?_map, List.getElem?_range hi, List.getElem?_range hj]

theorem entry_crop {A : Matrix} {n i j : Nat} (hi : i < n) (hj : j < n) :
    entry (crop A n) i j = entry A i j := by
  unfold entry crop
  rw [List.getElem?_map]
  rw [List.getElem?_take]
  rw [if_pos hi]
  cases h : A[i]? with
  | none => simp
  | some r =>
    simp only [Option.map_some', Option.getD_some]
    rw [List.getElem?_take, if_pos hj]

theorem entry_split_tl {A : Matrix} {i j : Nat}
    (hi : i < A.length / 2) (hj : j < A.length / 2) :
    entry (split A).1 i j = entry A i j := by
  unfold entry split
  rw [List.getElem?_map, List.getElem?_take, if_pos hi]
  cases h : A[i]? with
  | none => simp
  | some r =>
    simp only [Option.map_some', Option.getD_some]
    rw [List.getElem?_take, if_pos hj]

theorem entry_split_tr {A : Matrix} {i j : Nat} (hi : i < A.length / 2) :
    entry (split A).2.1 i j = entry A i (A.length / 2 + j) := by
  unfold entry split
  rw [List.getElem?_map, List.getElem?_take, if_pos hi]
  cases h : A[i]? with
  | none => simp
  | some r =>
    simp only [Option.map_some', Option.getD_some]
    rw [List.getElem?_drop]

theorem entry_split_bl {A : Matrix} {i j : Nat} (hj : j < A.length / 2) :
    entry (split A).2.2.1 i j = entry A (A.length / 2 + i) j := by
  unfold entry split
  rw [List.getElem?_map, List.getElem?_drop]
  cases h : A[A.length / 2 + i]? with
  | none => simp
  | some r =>
    simp only [Option.map_some', Option.getD_some]
    rw [List.getElem?_take, if_pos hj]

theorem entry_split_br {A : Matrix} {i j : Nat} :
    entry (split A).2.2.2 i j = entry A (A.length / 2 + i) (A.length / 2 + j) := by
  unfold entry split
  rw [List.getElem?_map, List.getElem?_drop]
  cases h : A[A.length / 2 + i]? with
  | none => simp
  | some r =>
    simp only [Option.map_some', Option.getD_some]
    rw [List.getElem?_drop]

/-! ### Combine lemmas -/

theorem length_combine (C11 C12 C21 C22 : Matrix) :
    (combine C11 C12 C21 C22).length = C11.length + C11.length := by
  simp [combine]

theorem sq_combine {X11 X12 X21 X22 : Matrix} {mid : Nat}
    (h11 : Sq X11 mid) (h12 : Sq X12 mid) (h21 : Sq X21 mid) (h22 : Sq X22 mid) :
    Sq (combine X11 X12 X21 X22) (mid + mid) := by
  refine ⟨by simp [combine, h11.1], ?_⟩
  intro r hr
  simp only [combine, List.mem_append, List.mem_map] at hr
  have hrow : ∀ (X Y : Matrix), Sq X mid → Sq Y mid → ∀ i ∈ List.range X11.length,
      ((X[i]?.getD [] ++
        (List.replicate (X11.length * 2) (0 : ℤ)).drop X11.length).take X11.length
        ++ Y[i]?.getD []).length = mid + mid := by
    intro X Y hX hY i hi
    rw [List.mem_range, h11.1] at hi
    have hXl := hX.1
    have hYl := hY.1
    obtain ⟨rx, hrx⟩ : ∃ rx, X[i]? = some rx :=
      ⟨_, List.getElem?_eq_getElem (by omega)⟩
    obtain ⟨ry, hry⟩ : ∃ ry, Y[i]? = some ry :=
      ⟨_, List.getElem?_eq_getElem (by omega)⟩
    have hrxl : rx.length = mid := hX.2 _ (List.getElem?_mem hrx)
    have hryl : ry.length = mid := hY.2 _ (List.getElem?_mem hry)
    rw [hrx, hry]
    simp only [Option.getD_some, List.length_append, List.length_take,
      List.length_replicate, List.length_drop, h11.1, hrxl, hryl]
    omega
  rcases hr with ⟨i, hi, rfl⟩ | ⟨i, hi, rfl⟩
  · exact hrow X11 X12 h11 h12 i hi
  · exact hrow X21 X22 h21 h22 i hi

theorem combine_row {X Y : Matrix} {mid : Nat} {i : Nat}
    (hX : Sq X mid) (hi : i < mid) :
    (X[i]?.getD [] ++ (List.replicate (mid * 2) (0 : ℤ)).drop mid).take mid
      ++ Y[i]?.getD [] = X[i]?.getD [] ++ Y[i]?.getD [] := by
  obtain ⟨rx, hrx⟩ : ∃ rx, X[i]? = some rx :=
    ⟨_, List.getElem?_eq_getElem (by rw [hX.1]; omega)⟩
  have hrxl : rx.length = mid := hX.2 _ (List.getElem?_mem hrx)
  rw [hrx, Option.getD_some, ← hrxl, List.take_left]

theorem entry_combine_11 {X11 X12 X21 X22 : Matrix} {mid i j : Nat}
    (h11 : Sq X11 mid) (hi : i < mid) (hj : j < mid) :
    entry (combine X11 X12 X21 X22) i j = entry X11 i j := by
  unfold entry combine
  rw [List.getElem?_append, if_pos (by simp [h11.1]; omega),
    List.getElem?_map, List.getElem?_range (by rw [h11.1]; omega),
    Option.map_some', Option.getD_some, h11.1, combine_row h11 hi]
  obtain ⟨rx, hrx⟩ : ∃ rx, X11[i]? = some rx :=
    ⟨_, List.getElem?_eq_getElem (by rw [h11.1]; omega)⟩
  have hrxl : rx.length = mid := h11.2 _ (List.getElem?_mem hrx)
  rw [hrx, Option.getD_some,
    List.getElem?_append, if_pos (by rw [hrxl]; omega)]

theorem entry_combine_12 {X11 X12 X21 X22 : Matrix} {mid i j : Nat}
    (h11 : Sq X11 mid) (hi : i < mid) :
    entry (combine X11 X12 X21 X22) i (mid + j) = entry X12 i j := by
  unfold entry combine
  rw [List.getElem?_append, if_pos (by simp [h11.1]; omega),
    List.getElem?_map, List.getElem?_range (by rw [h11.1]; omega),
    Option.map_some', Option.getD_some, h11.1, combine_row h11 hi]
  obtain ⟨rx, hrx⟩ : ∃ rx, X11[i]? = some rx :=
    ⟨_, List.getElem?_eq_getElem (by rw [h11.1]; omega)⟩
  have hrxl : rx.length = mid := h11.2 _ (List.getElem?_mem hrx)
  rw [hrx, Option.getD_some,
    List.getElem?_append_right (by rw [hrxl]; omega), hrxl]
  congr 2
  omega

theorem entry_combine_21 {X11 X12 X21 X22 : Matrix} {mid i j : Nat}
    (h11 : Sq X11 mid) (h21 : Sq X21 mid) (hi : i < mid) (hj : j < mid) :
    entry (combine X11 X12 X21 X22) (mid + i) j = entry X21 i j := by
  unfold entry combine
  rw [List.getElem?_append_right (by simp [h11.1])]
  rw [List.length_map, List.length_range, h11.1]
  have hidx : mid + i - mid = i := by omega
  rw [hidx, List.getElem?_map, List.getElem?_range (by omega : i < mid),
    Option.map_some', Option.getD_some, combine_row h21 hi]
  obtain ⟨rx, hrx⟩ : ∃ rx, X21[i]? = some rx :=
    ⟨_, List.getElem?_eq_getElem (by rw [h21.1]; omega)⟩
  have hrxl : rx.length = mid := h21.2 _ (List.getElem?_mem hrx)
  rw [hrx, Option.getD_some,
    List.getElem?_append, if_pos (by rw [hrxl]; omega)]

theorem entry_combine_22 {X11 X12 X21 X22 : Matrix} {mid i j : Nat}
    (h11 : Sq X11 mid) (h21 : Sq X21 mid) (hi : i < mid) :
    entry (combine X11 X12 X21 X22) (mid + i) (mid + j) = entry X22 i j := by
  unfold entry combine
  rw [List.getElem?_append_right (by simp [h11.1])]
  rw [List.length_map, List.length_range, h11.1]
  have hidx : mid + i - mid = i := by omega
  rw [hidx, List.getElem?_map, List.getElem?_range (by omega : i < mid),
    Option.map_some', Option.getD_some, combine_row h21 hi]
  obtain ⟨rx, hrx⟩ : ∃ rx, X21[i]? = some rx :=
    ⟨_, List.getElem?_eq_getElem (by rw [h21.1]; omega)⟩
  have hrxl : rx.length = mid := h21.2 _ (List.getElem?_mem hrx)
  rw [hrx, Option.getD_some,
    List.getElem?_append_right (by rw [hrxl]; omega), hrxl]
  congr 2
  omega

/-! ### Extensionality for well-formed matrices -/

theorem sq_ext {A B : Matrix} {n : Nat} (hA : Sq A n) (hB : Sq B n)
    (h : ∀ i j, i < n → j < n → entry A i j = entry B i j) : A = B := by
  apply List.ext_getElem (by rw [hA.1, hB.1])
  intro i h1 h2
  have hi : i < n := hA.1 ▸ h1
  have hrA : A[i].length = n := hA.2 _ (List.getElem_mem h1)
  have hrB : B[i].length = n := hB.2 _ (List.getElem_mem h2)
  apply List.ext_getElem (by rw [hrA, hrB])
  intro j hj1 hj2
  have hjn : j < n := hrA ▸ hj1
  have he := h i j hi hjn
  unfold entry at he
  rw [List.getElem?_eq_getElem h1, List.getElem?_eq_getElem h2] at he
  simp only [Option.getD_some] at he
  rw [List.getElem?_eq_getElem hj1, List.getElem?_eq_getElem hj2] at he
  simpa using he

theorem length_mc (A B : Matrix) : (mul_classic_core A B).length = A.length := by
  simp [mul_classic_core]

theorem entry_add' {A B : Matrix} {n i j : Nat} (hl : A.length = n)
    (hi : i < n) (hj : j < n) :
    entry (add A B) i j = entry A i j + entry B i j := by
  subst hl
  exact entry_add hi hj

theorem entry_sub' {A B : Matrix} {n i j : Nat} (hl : A.length = n)
    (hi : i < n) (hj : j < n) :
    entry (sub A B) i j = entry A i j - entry B i j := by
  subst hl
  exact entry_sub hi hj

theorem entry_mc' {A B : Matrix} {n i j : Nat} (hl : A.length = n)
    (hi : i < n) (hj : j < n) :
    entry (mul_classic_core A B) i j =
      ∑ x ∈ Finset.range n, entry A i x * entry B x j := by
  subst hl
  exact entry_mc hi hj

/-! ### The four Strassen quadrant identities -/

theorem strassen_q11 {mid : Nat} {A11 A12 A22 B11 B21 B22 : Matrix}
    (hA11 : Sq A11 mid) (hA12 : Sq A12 mid) (hA22 : Sq A22 mid)
    (hB11 : Sq B11 mid) (hB21 : Sq B21 mid) (hB22 : Sq B22 mid) :
    add (sub (add (mul_classic_core (add A11 A22) (add B11 B22))
                  (mul_classic_core A22 (sub B21 B11)))
             (mul_classic_core (add A11 A12) B22))
        (mul_classic_core (sub A12 A22) (add B21 B22))
      = add (mul_classic_core A11 B11) (mul_classic_core A12 B21) := by
  have hM1 : ∀ i j, i < mid → j < mid →
      entry (mul_classic_core (add A11 A22) (add B11 B22)) i j =
        ∑ x ∈ Finset.range mid,
          (entry A11 i x + entry A22 i x) * (entry B11 x j + entry B22 x j) := by
    intro i j hi hj
    rw [entry_mc' (by simp [length_add, hA11.1]) hi hj]
    refine Finset.sum_congr rfl fun x hx => ?_
    rw [entry_add' hA11.1 hi (Finset.mem_range.mp hx),
      entry_add' hB11.1 (Finset.mem_range.mp hx) hj]
  have hM4 : ∀ i j, i < mid → j < mid →
      entry (mul_classic_core A22 (sub B21 B11)) i j =
        ∑ x ∈ Finset.range mid,
          entry A22 i x * (entry B21 x j - entry B11 x j) := by
    intro i j hi hj
    rw [entry_mc' hA22.1 hi hj]
    refine Finset.sum_congr rfl fun x hx => ?_
    rw [entry_sub' hB21.1 (Finset.mem_range.mp hx) hj]
  have hM5 : ∀ i j, i < mid → j < mid →
      entry (mul_classic_core (add A11 A12) B22) i j =
        ∑ x ∈ Finset.range mid,
          (entry A11 i x + entry A12 i x) * entry B22 x j := by
    intro i j hi hj
    rw [entry_mc' (by simp [length_add, hA11.1]) hi hj]
    refine Finset.sum_congr rfl fun x hx => ?_
    rw [entry_add' hA11.1 hi (Finset.mem_range.mp hx)]
  have hM7 : ∀ i j, i < mid → j < mid →
      entry (mul_classic_core (sub A12 A22) (add B21 B22)) i j =
        ∑ x ∈ Finset.range mid,
          (entry A12 i x - entry A22 i x) * (entry B21 x j + entry B22 x j) := by
    intro i j hi hj
    rw [entry_mc' (by simp [length_sub, hA12.1]) hi hj]
    refine Finset.sum_congr rfl fun x hx => ?_
    rw [entry_sub' hA12.1 hi (Finset.mem_range.mp hx),
      entry_add' hB21.1 (Finset.mem_range.mp hx) hj]
  have hsL : Sq (add (sub (add (mul_classic_core (add A11 A22) (add B11 B22))
                  (mul_classic_core A22 (sub B21 B11)))
             (mul_classic_core (add A11 A12) B22))
        (mul_classic_core (sub A12 A22) (add B21 B22))) mid := by
    have h := sq_add (sub (add (mul_classic_core (add A11 A22) (add B11 B22))
                  (mul_classic_core A22 (sub B21 B11)))
             (mul_classic_core (add A11 A12) B22))
        (mul_classic_core (sub A12 A22) (add B21 B22))
    simpa [length_sub, length_add, length_mc, hA11.1] using h
  have hsR : Sq (add (mul_classic_core A11 B11)
      (mul_classic_core A12 B21)) mid := by
    simpa [length_mc, hA11.1] using
      sq_add (mul_classic_core A11 B11) (mul_classic_core A12 B21)
  apply sq_ext hsL hsR
  intro i j hi hj
  rw [entry_add' (by simp [length_sub, length_add, length_mc, hA11.1]) hi hj,
    entry_sub' (by simp [length_add, length_mc, hA11.1]) hi hj,
    entry_add' (by simp [length_add, length_mc, hA11.1]) hi hj,
    hM1 i j hi hj, hM4 i j hi hj, hM5 i j hi hj, hM7 i j hi hj,
    entry_add' (by simp [length_mc, hA11.1]) hi hj,
    entry_mc' hA11.1 hi hj, entry_mc' hA12.1 hi hj]
  simp only [← Finset.sum_add_distrib, ← Finset.sum_sub_distrib]
  exact Finset.sum_congr rfl fun x hx => by ring

theorem strassen_q12 {mid : Nat} {A11 A12 B12 B22 : Matrix}
    (hA11 : Sq A11 mid) (hA12 : Sq A12 mid)
    (hB12 : Sq B12 mid) (hB22 : Sq B22 mid) :
    add (mul_classic_core A11 (sub B12 B22))
        (mul_classic_core (add A11 A12) B22)
      = add (mul_classic_core A11 B12) (mul_classic_core A12 B22) := by
  have hM3 : ∀ i j, i < mid → j < mid →
      entry (mul_classic_core A11 (sub B12 B22)) i j =
        ∑ x ∈ Finset.range mid,
          entry A11 i x * (entry B12 x j - entry B22 x j) := by
    intro i j hi hj
    rw [entry_mc' hA11.1 hi hj]
    refine Finset.sum_congr rfl fun x hx => ?_
    rw [entry_sub' hB12.1 (Finset.mem_range.mp hx) hj]
  have hM5 : ∀ i j, i < mid → j < mid →
      entry (mul_classic_core (add A11 A12) B22) i j =
        ∑ x ∈ Finset.range mid,
          (entry A11 i x + entry A12 i x) * entry B22 x j := by
    intro i j hi hj
    rw [entry_mc' (by simp [length_add, hA11.1]) hi hj]
    refine Finset.sum_congr rfl fun x hx => ?_
    rw [entry_add' hA11.1 hi (Finset.mem_range.mp hx)]
  have hsL : Sq (add (mul_classic_core A11 (sub B12 B22))
      (mul_classic_core (add A11 A12) B22)) mid := by
    simpa [length_mc, hA11.1] using
      sq_add (mul_classic_core A11 (sub B12 B22))
        (mul_classic_core (add A11 A12) B22)
  have hsR : Sq (add (mul_classic_core A11 B12)
      (mul_classic_core A12 B22)) mid := by
    simpa [length_mc, hA11.1] using
      sq_add (mul_classic_core A11 B12) (mul_classic_core A12 B22)
  apply sq_ext hsL hsR
  intro i j hi hj
  rw [entry_add' (by simp [length_mc, hA11.1]) hi hj,
    hM3 i j hi hj, hM5 i j hi hj,
    entry_add' (by simp [length_mc, hA11.1]) hi hj,
    entry_mc' hA11.1 hi hj, entry_mc' hA12.1 hi hj]
  simp only [← Finset.sum_add_distrib]
  exact Finset.sum_congr rfl fun x hx => by ring

theorem strassen_q21 {mid : Nat} {A21 A22 B11 B21 : Matrix}
    (hA21 : Sq A21 mid) (hA22 : Sq A22 mid)
    (hB11 : Sq B11 mid) (hB21 : Sq B21 mid) :
    add (mul_classic_core (add A21 A22) B11)
        (mul_classic_core A22 (sub B21 B11))
      = add (mul_classic_core A21 B11) (mul_classic_core A22 B21) := by
  have hM2 : ∀ i j, i < mid → j < mid →
      entry (mul_classic_core (add A21 A22) B11) i j =
        ∑ x ∈ Finset.range mid,
          (entry A21 i x + entry A22 i x) * entry B11 x j := by
    intro i j hi hj
    rw [entry_mc' (by simp [length_add, hA21.1]) hi hj]
    refine Finset.sum_congr rfl fun x hx => ?_
    rw [entry_add' hA21.1 hi (Finset.mem_range.mp hx)]
  have hM4 : ∀ i j, i < mid → j < mid →
      entry (mul_classic_core A22 (sub B21 B11)) i j =
        ∑ x ∈ Finset.range mid,
          entry A22 i x * (entry B21 x j - entry B11 x j) := by
    intro i j hi hj
    rw [entry_mc' hA22.1 hi hj]
    refine Finset.sum_congr rfl fun x hx => ?_
    rw [entry_sub' hB21.1 (Finset.mem_range.mp hx) hj]
  have hsL : Sq (add (mul_classic_core (add A21 A22) B11)
      (mul_classic_core A22 (sub B21 B11))) mid := by
    simpa [length_mc, length_add, hA21.1] using
      sq_add (mul_classic_core (add A21 A22) B11)
        (mul_classic_core A22 (sub B21 B11))
  have hsR : Sq (add (mul_classic_core A21 B11)
      (mul_classic_core A22 B21)) mid := by
    simpa [length_mc, hA21.1] using
      sq_add (mul_classic_core A21 B11) (mul_classic_core A22 B21)
  apply sq_ext hsL hsR
  intro i j hi hj
  rw [entry_add' (by simp [length_mc, length_add, hA21.1]) hi hj,
    hM2 i j hi hj, hM4 i j hi hj,
    entry_add' (by simp [length_mc, hA21.1]) hi hj,
    entry_mc' hA21.1 hi hj, entry_mc' hA22.1 hi hj]
  simp only [← Finset.sum_add_distrib]
  exact Finset.sum_congr rfl fun x hx => by ring

theorem strassen_q22 {mid : Nat} {A11 A21 A22 B11 B12 B22 : Matrix}
    (hA11 : Sq A11 mid) (hA21 : Sq A21 mid) (hA22 : Sq A22 mid)
    (hB11 : Sq B11 mid) (hB12 : Sq B12 mid) (hB22 : Sq B22 mid) :
    add (sub (add (mul_classic_core (add A11 A22) (add B11 B22))
                  (mul_classic_core A11 (sub B12 B22)))
             (mul_classic_core (add A21 A22) B11))
        (mul_classic_core (sub A21 A11) (add B11 B12))
      = add (mul_classic_core A21 B12) (mul_classic_core A22 B22) := by
  have hM1 : ∀ i j, i < mid → j < mid →
      entry (mul_classic_core (add A11 A22) (add B11 B22)) i j =
        ∑ x ∈ Finset.range mid,
          (entry A11 i x + entry A22 i x) * (entry B11 x j + entry B22 x j) := by
    intro i j hi hj
    rw [entry_mc' (by simp [length_add, hA11.1]) hi hj]
    refine Finset.sum_congr rfl fun x hx => ?_
    rw [entry_add' hA11.1 hi (Finset.mem_range.mp hx),
      entry_add' hB11.1 (Finset.mem_range.mp hx) hj]
  have hM3 : ∀ i j, i < mid → j < mid →
      entry (mul_classic_core A11 (sub B12 B22)) i j =
        ∑ x ∈ Finset.range mid,
          entry A11 i x * (entry B12 x j - entry B22 x j) := by
    intro i j hi hj
    rw [entry_mc' hA11.1 hi hj]
    refine Finset.sum_congr rfl fun x hx => ?_
    rw [entry_sub' hB12.1 (Finset.mem_range.mp hx) hj]
  have hM2 : ∀ i j, i < mid → j < mid →
      entry (mul_classic_core (add A21 A22) B11) i j =
        ∑ x ∈ Finset.range mid,
          (entry A21 i x + entry A22 i x) * entry B11 x j := by
    intro i j hi hj
    rw [entry_mc' (by simp [length_add, hA21.1]) hi hj]
    refine Finset.sum_congr rfl fun x hx => ?_
    rw [entry_add' hA21.1 hi (Finset.mem_range.mp hx)]
  have hM6 : ∀ i j, i < mid → j < mid →
      entry (mul_classic_core (sub A21 A11) (add B11 B12)) i j =
        ∑ x ∈ Finset.range mid,
          (entry A21 i x - entry A11 i x) * (entry B11 x j + entry B12 x j) := by
    intro i j hi hj
    rw [entry_mc' (by simp [length_sub, hA21.1]) hi hj]
    refine Finset.sum_congr rfl fun x hx => ?_
    rw [entry_sub' hA21.1 hi (Finset.mem_range.mp hx),
      entry_add' hB11.1 (Finset.mem_range.mp hx) hj]
  have hsL : Sq (add (sub (add (mul_classic_core (add A11 A22) (add B11 B22))
                  (mul_classic_core A11 (sub B12 B22)))
             (mul_classic_core (add A21 A22) B11))
        (mul_classic_core (sub A21 A11) (add B11 B12))) mid := by
    have h := sq_add (sub (add (mul_classic_core (add A11 A22) (add B11 B22))
                  (mul_classic_core A11 (sub B12 B22)))
             (mul_classic_core (add A21 A22) B11))
        (mul_classic_core (sub A21 A11) (add B11 B12))
    simpa [length_sub, length_add, length_mc, hA11.1] using h
  have hsR : Sq (add (mul_classic_core A21 B12)
      (mul_classic_core A22 B22)) mid := by
    simpa [length_mc, hA21.1] using
      sq_add (mul_classic_core A21 B12) (mul_classic_core A22 B22)
  apply sq_ext hsL hsR
  intro i j hi hj
  rw [entry_add' (by simp [length_sub, length_add, length_mc, hA11.1]) hi hj,
    entry_sub' (by simp [length_add, length_mc, hA11.1]) hi hj,
    entry_add' (by simp [length_add, length_mc, hA11.1]) hi hj,
    hM1 i j hi hj, hM3 i j hi hj, hM2 i j hi hj, hM6 i j hi hj,
    entry_add' (by simp [length_mc, hA21.1]) hi hj,
    entry_mc' hA21.1 hi hj, entry_mc' hA22.1 hi hj]
  simp only [← Finset.sum_add_distrib, ← Finset.sum_sub_distrib]
  exact Finset.sum_congr rfl fun x hx => by ring

/-! ### Block multiplication and the split/combine round trip -/

theorem mc_block {mid : Nat} {A11 A12 A21 A22 B11 B12 B21 B22 : Matrix}
    (hA11 : Sq A11 mid) (hA12 : Sq A12 mid) (hA21 : Sq A21 mid)
    (hA22 : Sq A22 mid) (hB11 : Sq B11 mid) (hB12 : Sq B12 mid)
    (hB21 : Sq B21 mid) (hB22 : Sq B22 mid) :
    mul_classic_core (combine A11 A12 A21 A22) (combine B11 B12 B21 B22)
      = combine (add (mul_classic_core A11 B11) (mul_classic_core A12 B21))
                (add (mul_classic_core A11 B12) (mul_classic_core A12 B22))
                (add (mul_classic_core A21 B11) (mul_classic_core A22 B21))
                (add (mul_classic_core A21 B12) (mul_classic_core A22 B22)) := by
  have hCA : Sq (combine A11 A12 A21 A22) (mid + mid) :=
    sq_combine hA11 hA12 hA21 hA22
  have hCB : Sq (combine B11 B12 B21 B22) (mid + mid) :=
    sq_combine hB11 hB12 hB21 hB22
  have hQ11 : Sq (add (mul_classic_core A11 B11) (mul_classic_core A12 B21)) mid := by
    simpa [length_mc, hA11.1] using
      sq_add (mul_classic_core A11 B11) (mul_classic_core A12 B21)
  have hQ12 : Sq (add (mul_classic_core A11 B12) (mul_classic_core A12 B22)) mid := by
    simpa [length_mc, hA11.1] using
      sq_add (mul_classic_core A11 B12) (mul_classic_core A12 B22)
  have hQ21 : Sq (add (mul_classic_core A21 B11) (mul_classic_core A22 B21)) mid := by
    simpa [length_mc, hA21.1] using
      sq_add (mul_classic_core A21 B11) (mul_classic_core A22 B21)
  have hQ22 : Sq (add (mul_classic_core A21 B12) (mul_classic_core A22 B22)) mid := by
    simpa [length_mc, hA21.1] using
      sq_add (mul_classic_core A21 B12) (mul_classic_core A22 B22)
  have hsL : Sq (mul_classic_core (combine A11 A12 A21 A22)
      (combine B11 B12 B21 B22)) (mid + mid) := by
    simpa [hCA.1] using
      sq_mc (combine A11 A12 A21 A22) (combine B11 B12 B21 B22)
  have hsR := sq_combine hQ11 hQ12 hQ21 hQ22
  apply sq_ext hsL hsR
  intro i j hi hj
  rw [entry_mc' hCA.1 hi hj, Finset.sum_range_add]
  rcases Nat.lt_or_ge i mid with hi1 | hi1
  · rcases Nat.lt_or_ge j mid with hj1 | hj1
    · have s1 : ∑ x ∈ Finset.range mid,
          entry (combine A11 A12 A21 A22) i x *
            entry (combine B11 B12 B21 B22) x j =
          ∑ x ∈ Finset.range mid, entry A11 i x * entry B11 x j :=
        Finset.sum_congr rfl fun x hx => by
          rw [entry_combine_11 hA11 hi1 (Finset.mem_range.mp hx),
            entry_combine_11 hB11 (Finset.mem_range.mp hx) hj1]
      have s2 : ∑ x ∈ Finset.range mid,
          entry (combine A11 A12 A21 A22) i (mid + x) *
            entry (combine B11 B12 B21 B22) (mid + x) j =
          ∑ x ∈ Finset.range mid, entry A12 i x * entry B21 x j :=
        Finset.sum_congr rfl fun x hx => by
          rw [entry_combine_12 hA11 hi1,
            entry_combine_21 hB11 hB21 (Finset.mem_range.mp hx) hj1]
      rw [s1, s2, entry_combine_11 hQ11 hi1 hj1,
        entry_add' (by simp [length_mc, hA11.1]) hi1 hj1,
        entry_mc' hA11.1 hi1 hj1, entry_mc' hA12.1 hi1 hj1]
    · obtain ⟨j', rfl⟩ : ∃ j', j = mid + j' := ⟨j - mid, by omega⟩
      have hj1' : j' < mid := by omega
      have s1 : ∑ x ∈ Finset.range mid,
          entry (combine A11 A12 A21 A22) i x *
            entry (combine B11 B12 B21 B22) x (mid + j') =
          ∑ x ∈ Finset.range mid, entry A11 i x * entry B12 x j' :=
        Finset.sum_congr rfl fun x hx => by
          rw [entry_combine_11 hA11 hi1 (Finset.mem_range.mp hx),
            entry_combine_12 hB11 (Finset.mem_range.mp hx)]
      have s2 : ∑ x ∈ Finset.range mid,
          entry (combine A11 A12 A21 A22) i (mid + x) *
            entry (combine B11 B12 B21 B22) (mid + x) (mid + j') =
          ∑ x ∈ Finset.range mid, entry A12 i x * entry B22 x j' :=
        Finset.sum_congr rfl fun x hx => by
          rw [entry_combine_12 hA11 hi1,
            entry_combine_22 hB11 hB21 (Finset.mem_range.mp hx)]
      rw [s1, s2, entry_combine_12 hQ11 hi1,
        entry_add' (by simp [length_mc, hA11.1]) hi1 hj1',
        entry_mc' hA11.1 hi1 hj1', entry_mc' hA12.1 hi1 hj1']
  · obtain ⟨i', rfl⟩ : ∃ i', i = mid + i' := ⟨i - mid, by omega⟩
    have hi1' : i' < mid := by omega
    rcases Nat.lt_or_ge j mid with hj1 | hj1
    · have s1 : ∑ x ∈ Finset.range mid,
          entry (combine A11 A12 A21 A22) (mid + i') x *
            entry (combine B11 B12 B21 B22) x j =
          ∑ x ∈ Finset.range mid, entry A21 i' x * entry B11 x j :=
        Finset.sum_congr rfl fun x hx => by
          rw [entry_combine_21 hA11 hA21 hi1' (Finset.mem_range.mp hx),
            entry_combine_11 hB11 (Finset.mem_range.mp hx) hj1]
      have s2 : ∑ x ∈ Finset.range mid,
          entry (combine A11 A12 A21 A22) (mid + i') (mid + x) *
            entry (combine B11 B12 B21 B22) (mid + x) j =
          ∑ x ∈ Finset.range mid, entry A22 i' x * entry B21 x j :=
        Finset.sum_congr rfl fun x hx => by
          rw [entry_combine_22 hA11 hA21 hi1',
            entry_combine_21 hB11 hB21 (Finset.mem_range.mp hx) hj1]
      rw [s1, s2, entry_combine_21 hQ11 hQ21 hi1' hj1,
        entry_add' (by simp [length_mc, hA21.1]) hi1' hj1,
        entry_mc' hA21.1 hi1' hj1, entry_mc' hA22.1 hi1' hj1]
    · obtain ⟨j', rfl⟩ : ∃ j', j = mid + j' := ⟨j - mid, by omega⟩
      have hj1' : j' < mid := by omega
      have s1 : ∑ x ∈ Finset.range mid,
          entry (combine A11 A12 A21 A22) (mid + i') x *
            entry (combine B11 B12 B21 B22) x (mid + j') =
          ∑ x ∈ Finset.range mid, entry A21 i' x * entry B12 x j' :=
        Finset.sum_congr rfl fun x hx => by
          rw [entry_combine_21 hA11 hA21 hi1' (Finset.mem_range.mp hx),
            entry_combine_12 hB11 (Finset.mem_range.mp hx)]
      have s2 : ∑ x ∈ Finset.range mid,
          entry (combine A11 A12 A21 A22) (mid + i') (mid + x) *
            entry (combine B11 B12 B21 B22) (mid + x) (mid + j') =
          ∑ x ∈ Finset.range mid, entry A22 i' x * entry B22 x j' :=
        Finset.sum_congr rfl fun x hx => by
          rw [entry_combine_22 hA11 hA21 hi1',
            entry_combine_22 hB11 hB21 (Finset.mem_range.mp hx)]
      rw [s1, s2, entry_combine_22 hQ11 hQ21 hi1',
        entry_add' (by simp [length_mc, hA21.1]) hi1' hj1',
        entry_mc' hA21.1 hi1' hj1', entry_mc' hA22.1 hi1' hj1']

theorem combine_split {A : Matrix} {n : Nat} (hA : Sq A n) (he : n % 2 = 0) :
    combine (split A).1 (split A).2.1 (split A).2.2.1 (split A).2.2.2 = A := by
  have hq1 := sq_split_tl hA
  have hq2 := sq_split_tr_even hA he
  have hq3 := sq_split_bl_even hA he
  have hq4 := sq_split_br_even hA he
  have hmid : n / 2 + n / 2 = n := by omega
  have hsL : Sq (combine (split A).1 (split A).2.1 (split A).2.2.1
      (split A).2.2.2) n := by
    have h := sq_combine hq1 hq2 hq3 hq4
    rwa [hmid] at h
  apply sq_ext hsL hA
  intro i j hi hj
  rcases Nat.lt_or_ge i (n / 2) with hi2 | hi2
  · rcases Nat.lt_or_ge j (n / 2) with hj2 | hj2
    · rw [entry_combine_11 hq1 hi2 hj2,
        entry_split_tl (by rw [hA.1]; exact hi2) (by rw [hA.1]; exact hj2)]
    · obtain ⟨j', rfl⟩ : ∃ j', j = n / 2 + j' := ⟨j - n / 2, by omega⟩
      rw [entry_combine_12 hq1 hi2,
        entry_split_tr (by rw [hA.1]; exact hi2), hA.1]
  · obtain ⟨i', rfl⟩ : ∃ i', i = n / 2 + i' := ⟨i - n / 2, by omega⟩
    have hi2' : i' < n / 2 := by omega
    rcases Nat.lt_or_ge j (n / 2) with hj2 | hj2
    · rw [entry_combine_21 hq1 hq3 hi2' hj2,
        entry_split_bl (by rw [hA.1]; exact hj2), hA.1]
    · obtain ⟨j', rfl⟩ : ∃ j', j = n / 2 + j' := ⟨j - n / 2, by omega⟩
      rw [entry_combine_22 hq1 hq3 hi2', entry_split_br, hA.1]

theorem strassen_core {mid : Nat} {A11 A12 A21 A22 B11 B12 B21 B22 : Matrix}
    (hA11 : Sq A11 mid) (hA12 : Sq A12 mid) (hA21 : Sq A21 mid)
    (hA22 : Sq A22 mid) (hB11 : Sq B11 mid) (hB12 : Sq B12 mid)
    (hB21 : Sq B21 mid) (hB22 : Sq B22 mid) :
    combine
      (add (sub (add (mul_classic_core (add A11 A22) (add B11 B22))
                     (mul_classic_core A22 (sub B21 B11)))
                (mul_classic_core (add A11 A12) B22))
           (mul_classic_core (sub A12 A22) (add B21 B22)))
      (add (mul_classic_core A11 (sub B12 B22))
           (mul_classic_core (add A11 A12) B22))
      (add (mul_classic_core (add A21 A22) B11)
           (mul_classic_core A22 (sub B21 B11)))
      (add (sub (add (mul_classic_core (add A11 A22) (add B11 B22))
                     (mul_classic_core A11 (sub B12 B22)))
                (mul_classic_core (add A21 A22) B11))
           (mul_classic_core (sub A21 A11) (add B11 B12)))
      = mul_classic_core (combine A11 A12 A21 A22) (combine B11 B12 B21 B22) := by
  rw [mc_block hA11 hA12 hA21 hA22 hB11 hB12 hB21 hB22,
    strassen_q11 hA11 hA12 hA22 hB11 hB21 hB22,
    strassen_q12 hA11 hA12 hB12 hB22,
    strassen_q21 hA21 hA22 hB11 hB21,
    strassen_q22 hA11 hA21 hA22 hB11 hB12 hB22]

/-! ### The power-of-two normalisation -/

theorem npot_go_spec :
    ∀ (fuel n p : Nat) (hp : 0 < p), n - p ≤ fuel → (∃ j, p = 2 ^ j) →
      n ≤ npot_go n p hp ∧ ∃ j, npot_go n p hp = 2 ^ j := by
  intro fuel
  induction fuel with
  | zero =>
    intro n p hp hle hpow
    have hnp : ¬ p < n := by omega
    rw [npot_go, dif_neg hnp]
    exact ⟨by omega, hpow⟩
  | succ m ih =>
    intro n p hp hle hpow
    rw [npot_go]
    by_cases h : p < n
    · rw [dif_pos h]
      refine ih n (p * 2) (by omega) (by omega) ?_
      obtain ⟨j, rfl⟩ := hpow
      exact ⟨j + 1, by ring⟩
    · rw [dif_neg h]
      exact ⟨by omega, hpow⟩

theorem npot_spec (n : Nat) :
    n ≤ next_power_of_two n ∧ ∃ j, next_power_of_two n = 2 ^ j :=
  npot_go_spec n n 1 (by omega) (by omega) ⟨0, rfl⟩

/-! ### Correctness of the recursion -/

theorem sRec_fst_eq_mc :
    ∀ (k : Nat) (A B : Matrix) (cutoff : Nat) (s : StrassenStats)
      (ts : Nat → ℚ) (i : Nat), 1 ≤ cutoff → Sq A (2 ^ k) → Sq B (2 ^ k) →
      (strassen_rec A B cutoff s ts i).1 = mul_classic_core A B := by
  intro k
  induction k with
  | zero =>
    intro A B cutoff s ts i hc hA hB
    have h1 : A.length = 1 := by simpa using hA.1
    rw [strassen_rec.eq_def, dif_pos h1]
    simp [mul_classic_core, h1, List.range_succ]
  | succ k ih =>
    intro A B cutoff s ts i hc hA hB
    have hlen : A.length = 2 ^ (k + 1) := hA.1
    have hps : (2:Nat) ^ (k + 1) = 2 ^ k + 2 ^ k := by
      have := pow_succ 2 k
      omega
    have hk1 : (1:Nat) ≤ 2 ^ k := Nat.one_le_two_pow
    have h1 : ¬ A.length = 1 := by omega
    by_cases h2 : A.length ≤ cutoff
    · rw [strassen_rec.eq_def, dif_neg h1, dif_pos h2]
    · have heA : A.length % 2 = 0 := by omega
      have heB : (2:Nat) ^ (k + 1) % 2 = 0 := by omega
      have hhalf : (2:Nat) ^ (k + 1) / 2 = 2 ^ k := by omega
      have hA11 : Sq (split A).1 (2 ^ k) := by
        have h := sq_split_tl hA
        rwa [hhalf] at h
      have hA12 : Sq (split A).2.1 (2 ^ k) := by
        have h := sq_split_tr_even hA heB
        rwa [hhalf] at h
      have hA21 : Sq (split A).2.2.1 (2 ^ k) := by
        have h := sq_split_bl_even hA heB
        rwa [hhalf] at h
      have hA22 : Sq (split A).2.2.2 (2 ^ k) := by
        have h := sq_split_br_even hA heB
        rwa [hhalf] at h
      have hB11 : Sq (split B).1 (2 ^ k) := by
        have h := sq_split_tl hB
        rwa [hhalf] at h
      have hB12 : Sq (split B).2.1 (2 ^ k) := by
        have h := sq_split_tr_even hB heB
        rwa [hhalf] at h
      have hB21 : Sq (split B).2.2.1 (2 ^ k) := by
        have h := sq_split_bl_even hB heB
        rwa [hhalf] at h
      have hB22 : Sq (split B).2.2.2 (2 ^ k) := by
        have h := sq_split_br_even hB heB
        rwa [hhalf] at h
      have sAdd : ∀ (X Y : Matrix), X.length = 2 ^ k → Sq (add X Y) (2 ^ k) := by
        intro X Y hX
        have h := sq_add X Y
        rwa [hX] at h
      have sSub : ∀ (X Y : Matrix), X.length = 2 ^ k → Sq (sub X Y) (2 ^ k) := by
        intro X Y hX
        have h := sq_sub X Y
        rwa [hX] at h
      have e1 : ∀ s i, (strassen_rec (add (split A).1 (split A).2.2.2)
          (add (split B).1 (split B).2.2.2) cutoff s ts i).1 =
          mul_classic_core (add (split A).1 (split A).2.2.2)
            (add (split B).1 (split B).2.2.2) :=
        fun s i => ih _ _ cutoff s ts i hc (sAdd _ _ hA11.1) (sAdd _ _ hB11.1)
      have e2 : ∀ s i, (strassen_rec (add (split A).2.2.1 (split A).2.2.2)
          (split B).1 cutoff s ts i).1 =
          mul_classic_core (add (split A).2.2.1 (split A).2.2.2) (split B).1 :=
        fun s i => ih _ _ cutoff s ts i hc (sAdd _ _ hA21.1) hB11
      have e3 : ∀ s i, (strassen_rec (split A).1
          (sub (split B).2.1 (split B).2.2.2) cutoff s ts i).1 =
          mul_classic_core (split A).1 (sub (split B).2.1 (split B).2.2.2) :=
        fun s i => ih _ _ cutoff s ts i hc hA11 (sSub _ _ hB12.1)
      have e4 : ∀ s i, (strassen_rec (split A).2.2.2
          (sub (split B).2.2.1 (split B).1) cutoff s ts i).1 =
          mul_classic_core (split A).2.2.2 (sub (split B).2.2.1 (split B).1) :=
        fun s i => ih _ _ cutoff s ts i hc hA22 (sSub _ _ hB21.1)
      have e5 : ∀ s i, (strassen_rec (add (split A).1 (split A).2.1)
          (split B).2.2.2 cutoff s ts i).1 =
          mul_classic_core (add (split A).1 (split A).2.1) (split B).2.2.2 :=
        fun s i => ih _ _ cutoff s ts i hc (sAdd _ _ hA11.1) hB22
      have e6 : ∀ s i, (strassen_rec (sub (split A).2.2.1 (split A).1)
          (add (split B).1 (split B).2.1) cutoff s ts i).1 =
          mul_classic_core (sub (split A).2.2.1 (split A).1)
            (add (split B).1 (split B).2.1) :=
        fun s i => ih _ _ cutoff s ts i hc (sSub _ _ hA21.1) (sAdd _ _ hB11.1)
      have e7 : ∀ s i, (strassen_rec (sub (split A).2.1 (split A).2.2.2)
          (add (split B).2.2.1 (split B).2.2.2) cutoff s ts i).1 =
          mul_classic_core (sub (split A).2.1 (split A).2.2.2)
            (add (split B).2.2.1 (split B).2.2.2) :=
        fun s i => ih _ _ cutoff s ts i hc (sSub _ _ hA12.1) (sAdd _ _ hB21.1)
      rw [strassen_rec.eq_def, dif_neg h1, dif_neg h2]
      simp only []
      rw [e1, e2, e3, e4, e5, e6, e7,
        strassen_core hA11 hA12 hA21 hA22 hB11 hB12 hB21 hB22,
        combine_split hA heB, combine_split hB heB]

/-! ### Validation -/

theorem is_square_iff {A : Matrix} : is_square A = true ↔ Sq A A.length := by
  simp [is_square, Sq, List.all_eq_true]

theorem sq_is_square {A : Matrix} {n : Nat} (h : Sq A n) :
    is_square A = true := by
  rcases h with ⟨h1, h2⟩
  subst h1
  exact is_square_iff.mpr ⟨rfl, h2⟩

/-! ### Padding and cropping -/

theorem crop_pad {A : Matrix} {n m : Nat} (hA : Sq A n) (hnm : n ≤ m) :
    crop (pad_to_size A m) n = A := by
  have hsL : Sq (crop (pad_to_size A m) n) n := sq_crop (sq_pad A m) hnm
  apply sq_ext hsL hA
  intro i j hi hj
  rw [entry_crop hi hj, entry_pad (by omega) (by omega),
    if_pos (by rw [hA.1]; omega)]

theorem crop_mc_pad {A B : Matrix} {n m : Nat} (hA : Sq A n) (hB : Sq B n)
    (hnm : n ≤ m) :
    crop (mul_classic_core (pad_to_size A m) (pad_to_size B m)) n =
      mul_classic_core A B := by
  have hpA := sq_pad A m
  have hpB := sq_pad B m
  have hmcp : Sq (mul_classic_core (pad_to_size A m) (pad_to_size B m)) m := by
    simpa [hpA.1] using sq_mc (pad_to_size A m) (pad_to_size B m)
  have hsL := sq_crop hmcp hnm
  have hsR : Sq (mul_classic_core A B) n := by
    simpa [hA.1] using sq_mc A B
  apply sq_ext hsL hsR
  intro i j hi hj
  rw [entry_crop hi hj, entry_mc' hpA.1 (by omega) (by omega)]
  have hmm : n + (m - n) = m := by omega
  rw [show Finset.range m = Finset.range (n + (m - n)) by rw [hmm],
    Finset.sum_range_add]
  have hz : ∑ x ∈ Finset.range (m - n),
      entry (pad_to_size A m) i (n + x) *
        entry (pad_to_size B m) (n + x) j = 0 := by
    refine Finset.sum_eq_zero fun x hx => ?_
    have hx' := Finset.mem_range.mp hx
    rw [entry_pad (by omega) (by omega), if_neg (by rw [hA.1]; omega)]
    exact zero_mul _
  rw [hz, add_zero, entry_mc' hA.1 hi hj]
  refine Finset.sum_congr rfl fun x hx => ?_
  have hx' := Finset.mem_range.mp hx
  rw [entry_pad (by omega) (by omega), if_pos (by rw [hA.1]; omega),
    entry_pad (by omega) (by omega), if_pos (by rw [hB.1]; omega)]

/-! ### Top-level equality of the two multipliers -/

theorem mul_strassen_eq_classic {A B : Matrix} {cutoff : Nat}
    (hA : Sq A A.length) (hB : Sq B A.length) (hc : 1 ≤ cutoff)
    (s0 : Option StrassenStats) (ts : Nat → ℚ) :
    ∃ st, mul_strassen A B cutoff s0 ts =
      Except.ok (mul_classic_core A B, st) := by
  have hsqA : is_square A = true := sq_is_square hA
  have hsqB : is_square B = true := sq_is_square hB
  have hBl : B.length = A.length := hB.1
  rcases npot_spec A.length with ⟨hge, j, hj⟩
  by_cases hm : next_power_of_two A.length = A.length
  · have hA' : Sq A (2 ^ j) := by rw [← hj, hm]; exact hA
    have hB' : Sq B (2 ^ j) := by rw [← hj, hm]; exact hB
    refine ⟨(strassen_rec A B cutoff
      (s0.getD { calls := 0, split_combine_time := 0 }) ts 0).2.1, ?_⟩
    simp only [mul_strassen, assert_square, hsqA, if_true, hsqB, hBl]
    rw [if_neg (by omega : ¬ A.length ≠ A.length),
      if_neg (not_ne_iff.mpr hm),
      sRec_fst_eq_mc j A B cutoff _ ts 0 hc hA' hB']
  · have hpA : Sq (pad_to_size A (next_power_of_two A.length)) (2 ^ j) := by
      rw [← hj]
      exact sq_pad A (next_power_of_two A.length)
    have hpB : Sq (pad_to_size B (next_power_of_two A.length)) (2 ^ j) := by
      rw [← hj]
      have h := sq_pad B (next_power_of_two A.length)
      simpa [hBl] using h
    refine ⟨(strassen_rec (pad_to_size A (next_power_of_two A.length))
      (pad_to_size B (next_power_of_two A.length)) cutoff
      (s0.getD { calls := 0, split_combine_time := 0 }) ts 0).2.1, ?_⟩
    simp only [mul_strassen, assert_square, hsqA, if_true, hsqB, hBl]
    rw [if_neg (by omega : ¬ A.length ≠ A.length), if_pos hm,
      sRec_fst_eq_mc j _ _ cutoff _ ts 0 hc hpA hpB,
      crop_mc_pad hA hB hge]


/-! ### Call counting -/

theorem sRec_calls :
    ∀ (k : Nat) (cutoff : Nat), 1 ≤ cutoff →
      ∀ (A B : Matrix) (s : StrassenStats) (ts : Nat → ℚ) (i : Nat),
        A.length = 2 ^ k →
        ((strassen_rec A B cutoff s ts i).2.1).calls =
          s.calls + callsOf cutoff k := by
  intro k
  induction k with
  | zero =>
    intro cutoff hc A B s ts i hlen
    have h1 : A.length = 1 := by simpa using hlen
    rw [strassen_rec.eq_def, dif_pos h1]
    simp [callsOf]
  | succ k ih =>
    intro cutoff hc A B s ts i hlen
    have hps : (2:Nat) ^ (k + 1) = 2 ^ k + 2 ^ k := by
      have := pow_succ 2 k
      omega
    have hk1 : (1:Nat) ≤ 2 ^ k := Nat.one_le_two_pow
    have h1 : ¬ A.length = 1 := by omega
    by_cases h2 : A.length ≤ cutoff
    · rw [strassen_rec.eq_def, dif_neg h1, dif_pos h2]
      have hco : callsOf cutoff (k + 1) = 1 := by
        simp only [callsOf]
        rw [if_pos (by omega)]
      simp [hco]
    · have l1 : (add (split A).1 (split A).2.2.2).length = 2 ^ k := by
        simp [length_add, split]
        omega
      have l2 : (add (split A).2.2.1 (split A).2.2.2).length = 2 ^ k := by
        simp [length_add, split]
        omega
      have l3 : ((split A).1).length = 2 ^ k := by
        simp [split]
        omega
      have l4 : ((split A).2.2.2).length = 2 ^ k := by
        simp [split]
        omega
      have l5 : (add (split A).1 (split A).2.1).length = 2 ^ k := by
        simp [length_add, split]
        omega
      have l6 : (sub (split A).2.2.1 (split A).1).length = 2 ^ k := by
        simp [length_sub, split]
        omega
      have l7 : (sub (split A).2.1 (split A).2.2.2).length = 2 ^ k := by
        simp [length_sub, split]
        omega
      have c1 : ∀ (Y : Matrix) (s' : StrassenStats) (i' : Nat),
          ((strassen_rec (add (split A).1 (split A).2.2.2) Y cutoff s' ts i').2.1).calls
            = s'.calls + callsOf cutoff k :=
        fun Y s' i' => ih cutoff hc _ Y s' ts i' l1
      have c2 : ∀ (Y : Matrix) (s' : StrassenStats) (i' : Nat),
          ((strassen_rec (add (split A).2.2.1 (split A).2.2.2) Y cutoff s' ts i').2.1).calls
            = s'.calls + callsOf cutoff k :=
        fun Y s' i' => ih cutoff hc _ Y s' ts i' l2
      have c3 : ∀ (Y : Matrix) (s' : StrassenStats) (i' : Nat),
          ((strassen_rec (split A).1 Y cutoff s' ts i').2.1).calls
            = s'.calls + callsOf cutoff k :=
        fun Y s' i' => ih cutoff hc _ Y s' ts i' l3
      have c4 : ∀ (Y : Matrix) (s' : StrassenStats) (i' : Nat),
          ((strassen_rec (split A).2.2.2 Y cutoff s' ts i').2.1).calls
            = s'.calls + callsOf cutoff k :=
        fun Y s' i' => ih cutoff hc _ Y s' ts i' l4
      have c5 : ∀ (Y : Matrix) (s' : StrassenStats) (i' : Nat),
          ((strassen_rec (add (split A).1 (split A).2.1) Y cutoff s' ts i').2.1).calls
            = s'.calls + callsOf cutoff k :=
        fun Y s' i' => ih cutoff hc _ Y s' ts i' l5
      have c6 : ∀ (Y : Matrix) (s' : StrassenStats) (i' : Nat),
          ((strassen_rec (sub (split A).2.2.1 (split A).1) Y cutoff s' ts i').2.1).calls
            = s'.calls + callsOf cutoff k :=
        fun Y s' i' => ih cutoff hc _ Y s' ts i' l6
      have c7 : ∀ (Y : Matrix) (s' : StrassenStats) (i' : Nat),
          ((strassen_rec (sub (split A).2.1 (split A).2.2.2) Y cutoff s' ts i').2.1).calls
            = s'.calls + callsOf cutoff k :=
        fun Y s' i' => ih cutoff hc _ Y s' ts i' l7
      rw [strassen_rec.eq_def, dif_neg h1, dif_neg h2]
      simp only []
      rw [c7, c6, c5, c4, c3, c2, c1]
      have hco : callsOf cutoff (k + 1) = 1 + 7 * callsOf cutoff k := by
        simp only [callsOf]
        rw [if_neg (by omega)]
      simp only [hco]
      omega

/-! ### Time accounting -/

theorem sRec_time_base {A B : Matrix} {cutoff : Nat} {s : StrassenStats}
    {ts : Nat → ℚ} {i : Nat} (h : A.length = 1 ∨ A.length ≤ cutoff) :
    ((strassen_rec A B cutoff s ts i).2.1).split_combine_time =
      s.split_combine_time := by
  by_cases h1 : A.length = 1
  · rw [strassen_rec.eq_def, dif_pos h1]
  · have h2 : A.length ≤ cutoff := by
      rcases h with h | h
      · exact absurd h h1
      · exact h
    rw [strassen_rec.eq_def, dif_neg h1, dif_pos h2]

theorem sRec_time_mono :
    ∀ (n : Nat) (A B : Matrix) (cutoff : Nat) (s : StrassenStats)
      (ts : Nat → ℚ) (i : Nat), A.length = n → (∀ x, 0 ≤ ts x) →
      s.split_combine_time ≤
        ((strassen_rec A B cutoff s ts i).2.1).split_combine_time := by
  intro n
  induction n using Nat.strong_induction_on with
  | _ n ih =>
    intro A B cutoff s ts i hlen hts
    by_cases h1 : A.length = 1
    · rw [strassen_rec.eq_def, dif_pos h1]
    · by_cases h2 : A.length ≤ cutoff
      · rw [strassen_rec.eq_def, dif_neg h1, dif_pos h2]
      · have hn2 : 2 ≤ A.length := by omega
        have hlt : ∀ (X : Matrix), X.length < A.length →
            ∀ (Y : Matrix) (s' : StrassenStats) (i' : Nat),
            s'.split_combine_time ≤
              ((strassen_rec X Y cutoff s' ts i').2.1).split_combine_time :=
          fun X hX Y s' i' =>
            ih X.length (by omega) X Y cutoff s' ts i' rfl hts
        have la1 : (add (split A).1 (split A).2.2.2).length < A.length := by
          simp [length_add, split]
          omega
        have la2 : (add (split A).2.2.1 (split A).2.2.2).length < A.length := by
          simp [length_add, split]
          omega
        have la3 : ((split A).1).length < A.length := by
          simp [split]
          omega
        have la4 : ((split A).2.2.2).length < A.length := by
          simp [split]
          omega
        have la5 : (add (split A).1 (split A).2.1).length < A.length := by
          simp [length_add, split]
          omega
        have la6 : (sub (split A).2.2.1 (split A).1).length < A.length := by
          simp [length_sub, split]
          omega
        have la7 : (sub (split A).2.1 (split A).2.2.2).length < A.length := by
          simp [length_sub, split]
          omega
        rw [strassen_rec.eq_def, dif_neg h1, dif_neg h2]
        simp only []
        set s1 : StrassenStats :=
          { calls := s.calls + 1,
            split_combine_time := s.split_combine_time + ts i } with hs1
        set r1 := strassen_rec (add (split A).1 (split A).2.2.2)
          (add (split B).1 (split B).2.2.2) cutoff s1 ts (i + 1) with hr1
        set r2 := strassen_rec (add (split A).2.2.1 (split A).2.2.2)
          (split B).1 cutoff r1.2.1 ts r1.2.2 with hr2
        set r3 := strassen_rec (split A).1
          (sub (split B).2.1 (split B).2.2.2) cutoff r2.2.1 ts r2.2.2 with hr3
        set r4 := strassen_rec (split A).2.2.2
          (sub (split B).2.2.1 (split B).1) cutoff r3.2.1 ts r3.2.2 with hr4
        set r5 := strassen_rec (add (split A).1 (split A).2.1)
          (split B).2.2.2 cutoff r4.2.1 ts r4.2.2 with hr5
        set r6 := strassen_rec (sub (split A).2.2.1 (split A).1)
          (add (split B).1 (split B).2.1) cutoff r5.2.1 ts r5.2.2 with hr6
        set r7 := strassen_rec (sub (split A).2.1 (split A).2.2.2)
          (add (split B).2.2.1 (split B).2.2.2) cutoff r6.2.1 ts r6.2.2 with hr7
        have step0 : s.split_combine_time ≤ s1.split_combine_time := by
          rw [hs1]
          have := hts i
          simp
          linarith
        have step1 : s1.split_combine_time ≤ r1.2.1.split_combine_time := by
          rw [hr1]
          exact hlt _ la1 _ _ _
        have step2 : r1.2.1.split_combine_time ≤ r2.2.1.split_combine_time := by
          rw [hr2]
          exact hlt _ la2 _ _ _
        have step3 : r2.2.1.split_combine_time ≤ r3.2.1.split_combine_time := by
          rw [hr3]
          exact hlt _ la3 _ _ _
        have step4 : r3.2.1.split_combine_time ≤ r4.2.1.split_combine_time := by
          rw [hr4]
          exact hlt _ la4 _ _ _
        have step5 : r4.2.1.split_combine_time ≤ r5.2.1.split_combine_time := by
          rw [hr5]
          exact hlt _ la5 _ _ _
        have step6 : r5.2.1.split_combine_time ≤ r6.2.1.split_combine_time := by
          rw [hr6]
          exact hlt _ la6 _ _ _
        have step7 : r6.2.1.split_combine_time ≤ r7.2.1.split_combine_time := by
          rw [hr7]
          exact hlt _ la7 _ _ _
        have step8 : r7.2.1.split_combine_time ≤
            r7.2.1.split_combine_time + ts r7.2.2 := by
          have := hts r7.2.2
          linarith
        exact le_trans step0 (le_trans step1 (le_trans step2 (le_trans step3
          (le_trans step4 (le_trans step5 (le_trans step6
            (le_trans step7 step8)))))))

/-! ### Success of the checked entry points -/

theorem mul_classic_ok {A B : Matrix} {n : Nat} (hA : Sq A n) (hB : Sq B n) :
    mul_classic A B = Except.ok (mul_classic_core A B) := by
  have hsqA := sq_is_square hA
  have hsqB := sq_is_square hB
  have hBl : B.length = A.length := by rw [hA.1, hB.1]
  simp only [mul_classic, assert_square, hsqA, if_true, hsqB, hBl]
  rw [if_neg (by omega : ¬ A.length ≠ A.length)]

theorem mul_strassen_ok {A B : Matrix} {cutoff : Nat} {s0 : Option StrassenStats}
    {ts : Nat → ℚ} (h1 : is_square A = true) (h2 : is_square B = true)
    (h3 : B.length = A.length) :
    ∃ C st, mul_strassen A B cutoff s0 ts = Except.ok (C, st) := by
  simp only [mul_strassen, assert_square, h1, if_true, h2, h3]
  rw [if_neg (by omega : ¬ A.length ≠ A.length)]
  by_cases hm : next_power_of_two A.length ≠ A.length
  · rw [if_pos hm]
    exact ⟨_, _, rfl⟩
  · rw [if_neg hm]
    exact ⟨_, _, rfl⟩

theorem sq_of_checks {A B : Matrix} (h2 : is_square B = true)
    (h3 : B.length = A.length) : Sq B A.length := by
  refine ⟨h3, fun r hr => ?_⟩
  rw [(is_square_iff.mp h2).2 r hr, h3]

/-! ### Claims -/

/-- C1: for every `n ≥ 1`, every `cutoff ≥ 1` and all square integer
matrices `A`, `B` of size `n × n`, the matrix returned by
`mul_strassen(A, B, cutoff)` is element-wise equal to the matrix returned by
`mul_classic(A, B)` — both succeed and return exactly the triple-loop
product `mul_classic_core A B`. -/
theorem claim_C1_strassen_eq_classic {A B : Matrix} {n cutoff : Nat}
    (hA : Sq A n) (hB : Sq B n) (hn : 1 ≤ n) (hcut : 1 ≤ cutoff)
    (s0 : Option StrassenStats) (ts : Nat → ℚ) :
    ∃ st, mul_strassen A B cutoff s0 ts =
        Except.ok (mul_classic_core A B, st)
      ∧ mul_classic A B = Except.ok (mul_classic_core A B) := by
  obtain ⟨h1, h2⟩ := hA
  subst h1
  obtain ⟨st, hst⟩ := mul_strassen_eq_classic ⟨rfl, h2⟩ hB hcut s0 ts
  exact ⟨st, hst, mul_classic_ok ⟨rfl, h2⟩ hB⟩

/-- Witness for C1 at the spec's concrete scenario
`A = [[1,2],[3,4]]`, `B = [[5,6],[7,8]]`, `cutoff = 1`. -/
theorem claim_C1_witness :
    ∃ st, mul_strassen [[1,2],[3,4]] [[5,6],[7,8]] 1 none (fun _ => 0) =
        Except.ok (mul_classic_core [[1,2],[3,4]] [[5,6],[7,8]], st)
      ∧ mul_classic [[1,2],[3,4]] [[5,6],[7,8]] =
        Except.ok (mul_classic_core [[1,2],[3,4]] [[5,6],[7,8]]) :=
  @claim_C1_strassen_eq_classic [[1,2],[3,4]] [[5,6],[7,8]] 2 1
    (by decide) (by decide) (by decide) (by decide) none (fun _ => 0)

/-- C2: for all square matrices `A`, `B` of equal size `n ≥ 1`,
`mul_classic(A, B)` succeeds and returns the `n × n` matrix `C` with
`C[i][j] = Σ_{k<n} A[i][k]·B[k][j]` for every index pair. -/
theorem claim_C2_classic_spec {A B : Matrix} {n : Nat}
    (hA : Sq A n) (hB : Sq B n) (hn : 1 ≤ n) :
    ∃ C, mul_classic A B = Except.ok C ∧ Sq C n ∧
      ∀ i j, i < n → j < n →
        entry C i j = ∑ x ∈ Finset.range n, entry A i x * entry B x j := by
  refine ⟨mul_classic_core A B, mul_classic_ok hA hB, ?_, ?_⟩
  · have h := sq_mc A B
    rwa [hA.1] at h
  · intro i j hi hj
    exact entry_mc' hA.1 hi hj

/-- Witness for C2 at `A = [[1,2],[3,4]]`, `B = [[5,6],[7,8]]`. -/
theorem claim_C2_witness :
    ∃ C, mul_classic [[1,2],[3,4]] [[5,6],[7,8]] = Except.ok C ∧ Sq C 2 ∧
      ∀ i j, i < 2 → j < 2 →
        entry C i j = ∑ x ∈ Finset.range 2,
          entry [[1,2],[3,4]] i x * entry [[5,6],[7,8]] x j :=
  claim_C2_classic_spec (by decide) (by decide) (by decide)

/-- C3: `mul_classic` and `mul_strassen` raise an error if and only if `A`
is not square, or `B` is not square, or the two sizes differ; an error
value carries only a message, never a partial result matrix. -/
theorem claim_C3_error_iff (A B : Matrix) (cutoff : Nat)
    (s0 : Option StrassenStats) (ts : Nat → ℚ) :
    ((∃ e, mul_classic A B = Except.error e) ↔
      ¬ (is_square A = true ∧ is_square B = true ∧ B.length = A.length))
    ∧ ((∃ e, mul_strassen A B cutoff s0 ts = Except.error e) ↔
      ¬ (is_square A = true ∧ is_square B = true ∧ B.length = A.length)) := by
  constructor
  · constructor
    · rintro ⟨e, he⟩ ⟨h1, h2, h3⟩
      rw [mul_classic_ok ⟨rfl, (is_square_iff.mp h1).2⟩ (sq_of_checks h2 h3)]
        at he
      exact Except.noConfusion he
    · intro h
      by_cases h1 : is_square A = true
      · by_cases h2 : is_square B = true
        · have h3 : B.length ≠ A.length := by tauto
          refine ⟨"A e B devem ter o mesmo tamanho (n x n).", ?_⟩
          simp only [mul_classic, assert_square, h1, if_true, h2]
          rw [if_pos h3]
        · simp only [Bool.not_eq_true] at h2
          exact ⟨"Matriz B não é quadrada.",
            by simp [mul_classic, assert_square, h1, h2]⟩
      · simp only [Bool.not_eq_true] at h1
        exact ⟨"Matriz A não é quadrada.",
          by simp [mul_classic, assert_square, h1]⟩
  · constructor
    · rintro ⟨e, he⟩ ⟨h1, h2, h3⟩
      obtain ⟨C, st, hok⟩ :=
        @mul_strassen_ok A B cutoff s0 ts h1 h2 h3
      rw [hok] at he
      exact Except.noConfusion he
    · intro h
      by_cases h1 : is_square A = true
      · by_cases h2 : is_square B = true
        · have h3 : B.length ≠ A.length := by tauto
          refine ⟨"A e B devem ter o mesmo tamanho (n x n).", ?_⟩
          simp only [mul_strassen, assert_square, h1, if_true, h2]
          rw [if_pos h3]
        · simp only [Bool.not_eq_true] at h2
          exact ⟨"Matriz B não é quadrada.",
            by simp [mul_strassen, assert_square, h1, h2]⟩
      · simp only [Bool.not_eq_true] at h1
        exact ⟨"Matriz A não é quadrada.",
          by simp [mul_strassen, assert_square, h1]⟩

/-- C4: `strassen_rec` bumps `stats.calls` exactly once per invocation, so
on an `n × n` input with `n = 2 ^ k` the calls added follow
`calls(n) = 1` if `n ≤ cutoff` else `1 + 7·calls(n/2)`; in particular the
recurrence gives `400` for `n = 8`, `cutoff = 1`. -/
theorem claim_C4_calls {A B : Matrix} {k cutoff : Nat} (hA : A.length = 2 ^ k)
    (hcut : 1 ≤ cutoff) (s : StrassenStats) (ts : Nat → ℚ) (i : Nat) :
    ((strassen_rec A B cutoff s ts i).2.1).calls = s.calls + callsOf cutoff k
    ∧ callsOf 1 3 = 400 :=
  ⟨sRec_calls k cutoff hcut A B s ts i hA, by decide⟩

/-- Witness for C4 on a concrete `8 × 8` input with `cutoff = 1`. -/
theorem claim_C4_witness :
    ((strassen_rec (zeros 8) (zeros 8) 1
        { calls := 0, split_combine_time := 0 } (fun _ => 0) 0).2.1).calls
      = 0 + callsOf 1 3
    ∧ callsOf 1 3 = 400 :=
  @claim_C4_calls (zeros 8) (zeros 8) 3 1 (by decide) (by decide)
    { calls := 0, split_combine_time := 0 } (fun _ => 0) 0

/-- C5: for every square matrix `A` of size `n` and every `m ≥ n`,
cropping the padded matrix back to `n` reproduces `A` exactly; in
particular with `m = next_power_of_two n`. -/
theorem claim_C5_pad_crop {A : Matrix} {n m : Nat} (hA : Sq A n)
    (hm : n ≤ m) :
    crop (pad_to_size A m) n = A ∧
      crop (pad_to_size A (next_power_of_two n)) n = A :=
  ⟨crop_pad hA hm, crop_pad hA (npot_spec n).1⟩

/-- Witness for C5 at a `3 × 3` matrix padded to `4` (and to `5`). -/
theorem claim_C5_witness :
    crop (pad_to_size [[1,2,3],[4,5,6],[7,8,9]] 5) 3 = [[1,2,3],[4,5,6],[7,8,9]]
    ∧ crop (pad_to_size [[1,2,3],[4,5,6],[7,8,9]] (next_power_of_two 3)) 3 =
      [[1,2,3],[4,5,6],[7,8,9]] :=
  claim_C5_pad_crop (by decide) (by decide)

/-- C6: for every square matrix of even size `n ≥ 2`, `combine` applied to
the four quadrants of `split` (top-left, top-right, bottom-left,
bottom-right) restores the matrix; each quadrant is `(n/2) × (n/2)`, and
`combine` of four `mid × mid` matrices is `(2·mid) × (2·mid)`. -/
theorem claim_C6_split_combine {A : Matrix} {n : Nat} (hA : Sq A n)
    (he : n % 2 = 0) (h2 : 2 ≤ n) :
    combine (split A).1 (split A).2.1 (split A).2.2.1 (split A).2.2.2 = A
    ∧ Sq (split A).1 (n / 2) ∧ Sq (split A).2.1 (n / 2)
    ∧ Sq (split A).2.2.1 (n / 2) ∧ Sq (split A).2.2.2 (n / 2)
    ∧ ∀ (X11 X12 X21 X22 : Matrix) (mid : Nat),
        Sq X11 mid → Sq X12 mid → Sq X21 mid → Sq X22 mid →
        Sq (combine X11 X12 X21 X22) (2 * mid) := by
  refine ⟨combine_split hA he, sq_split_tl hA, sq_split_tr_even hA he,
    sq_split_bl_even hA he, sq_split_br_even hA he, ?_⟩
  intro X11 X12 X21 X22 mid h11 h12 h21 h22
  have h := sq_combine h11 h12 h21 h22
  rw [two_mul]
  exact h

/-- Witness for C6 at `A = [[1,2],[3,4]]`. -/
theorem claim_C6_witness :
    combine (split [[1,2],[3,4]]).1 (split [[1,2],[3,4]]).2.1
        (split [[1,2],[3,4]]).2.2.1 (split [[1,2],[3,4]]).2.2.2 = [[1,2],[3,4]]
    ∧ Sq (split [[1,2],[3,4]]).1 (2 / 2) ∧ Sq (split [[1,2],[3,4]]).2.1 (2 / 2)
    ∧ Sq (split [[1,2],[3,4]]).2.2.1 (2 / 2)
    ∧ Sq (split [[1,2],[3,4]]).2.2.2 (2 / 2)
    ∧ ∀ (X11 X12 X21 X22 : Matrix) (mid : Nat),
        Sq X11 mid → Sq X12 mid → Sq X21 mid → Sq X22 mid →
        Sq (combine X11 X12 X21 X22) (2 * mid) :=
  claim_C6_split_combine (by decide) (by decide) (by decide)

/-- C7: for valid inputs (both square, equal sizes) `mul_strassen` always
terminates with a result: the embedding is a total function (the recursion
in `strassen_rec` is well-founded on the matrix size, which halves each
level) and it returns `Except.ok` on every validated input. -/
theorem claim_C7_termination (A B : Matrix) (cutoff : Nat)
    (s0 : Option StrassenStats) (ts : Nat → ℚ)
    (h1 : is_square A = true) (h2 : is_square B = true)
    (h3 : B.length = A.length) :
    ∃ C st, mul_strassen A B cutoff s0 ts = Except.ok (C, st) :=
  mul_strassen_ok h1 h2 h3

/-- Witness for C7 at a `3 × 3` pair (padding path) with `cutoff = 4`. -/
theorem claim_C7_witness :
    ∃ C st, mul_strassen [[1,2,3],[4,5,6],[7,8,9]] [[9,8,7],[6,5,4],[3,2,1]]
      4 none (fun _ => 0) = Except.ok (C, st) :=
  claim_C7_termination [[1,2,3],[4,5,6],[7,8,9]] [[9,8,7],[6,5,4],[3,2,1]]
    4 none (fun _ => 0) (by decide) (by decide) (by decide)

/-- C8: with every elapsed duration non-negative (the host clock is
monotone), `split_combine_time` never decreases across a `strassen_rec`
call tree, stays non-negative if it started non-negative, and is left
unchanged by the `n = 1` and `n ≤ cutoff` branches — it is incremented
only in the recursive case, by the two bookkeeping regions, never by the
recursive multiplications themselves (which only consume their own
durations). -/
theorem claim_C8_time {A B : Matrix} {cutoff : Nat} (s : StrassenStats)
    (ts : Nat → ℚ) (i : Nat) (hts : ∀ x, 0 ≤ ts x) :
    s.split_combine_time ≤
      ((strassen_rec A B cutoff s ts i).2.1).split_combine_time
    ∧ (0 ≤ s.split_combine_time →
        0 ≤ ((strassen_rec A B cutoff s ts i).2.1).split_combine_time)
    ∧ ((A.length = 1 ∨ A.length ≤ cutoff) →
        ((strassen_rec A B cutoff s ts i).2.1).split_combine_time =
          s.split_combine_time) := by
  have hm := sRec_time_mono A.length A B cutoff s ts i rfl hts
  exact ⟨hm, fun h0 => le_trans h0 hm, fun h => sRec_time_base h⟩

/-- Witness for C8 on a concrete `2 × 2` recursive call with zero
durations. -/
theorem claim_C8_witness :
    (({ calls := 0, split_combine_time := 0 } : StrassenStats)).split_combine_time ≤
      ((strassen_rec [[1,2],[3,4]] [[5,6],[7,8]] 1
        { calls := 0, split_combine_time := 0 } (fun _ => 0) 0).2.1).split_combine_time
    ∧ (0 ≤ (({ calls := 0, split_combine_time := 0 } : StrassenStats)).split_combine_time →
        0 ≤ ((strassen_rec [[1,2],[3,4]] [[5,6],[7,8]] 1
          { calls := 0, split_combine_time := 0 } (fun _ => 0) 0).2.1).split_combine_time)
    ∧ (((([[1,2],[3,4]] : Matrix)).length = 1 ∨ (([[1,2],[3,4]] : Matrix)).length ≤ 1) →
        ((strassen_rec [[1,2],[3,4]] [[5,6],[7,8]] 1
          { calls := 0, split_combine_time := 0 } (fun _ => 0) 0).2.1).split_combine_time =
          (({ calls := 0, split_combine_time := 0 } : StrassenStats)).split_combine_time) :=
  claim_C8_time { calls := 0, split_combine_time := 0 } (fun _ => 0) 0
    (fun x => le_refl 0)

/-- C10: `split` is total on square inputs of odd size `n`: it silently
partitions at `mid = ⌊n/2⌋`, yielding a `⌊n/2⌋ × ⌊n/2⌋` top-left quadrant,
a `⌈n/2⌉ × ⌈n/2⌉` bottom-right quadrant, and rectangular off-diagonal
quadrants, rather than reporting an error. -/
theorem claim_C10_split_odd {A : Matrix} {n : Nat} (hA : Sq A n)
    (ho : n % 2 = 1) :
    Sq (split A).1 (n / 2) ∧ Sq (split A).2.2.2 (n - n / 2)
    ∧ n - n / 2 = n / 2 + 1
    ∧ ((split A).2.1).length = n / 2
    ∧ (∀ r ∈ (split A).2.1, r.length = n - n / 2)
    ∧ ((split A).2.2.1).length = n - n / 2
    ∧ (∀ r ∈ (split A).2.2.1, r.length = n / 2) :=
  ⟨sq_split_tl hA, sq_split_br hA, by omega,
    (split_tr_shape hA).1, (split_tr_shape hA).2,
    (split_bl_shape hA).1, (split_bl_shape hA).2⟩

/-- Witness for C10 at a `3 × 3` matrix. -/
theorem claim_C10_witness :
    Sq (split [[1,2,3],[4,5,6],[7,8,9]]).1 (3 / 2)
    ∧ Sq (split [[1,2,3],[4,5,6],[7,8,9]]).2.2.2 (3 - 3 / 2)
    ∧ 3 - 3 / 2 = 3 / 2 + 1
    ∧ ((split [[1,2,3],[4,5,6],[7,8,9]]).2.1).length = 3 / 2
    ∧ (∀ r ∈ (split [[1,2,3],[4,5,6],[7,8,9]]).2.1, r.length = 3 - 3 / 2)
    ∧ ((split [[1,2,3],[4,5,6],[7,8,9]]).2.2.1).length = 3 - 3 / 2
    ∧ (∀ r ∈ (split [[1,2,3],[4,5,6],[7,8,9]]).2.2.1, r.length = 3 / 2) :=
  claim_C10_split_odd (by decide) (by decide)

end TrabalhoDivConq
